import Mathlib

/-!
Verification of the imgtool batch image processing pipeline
(`src/runner.rs`, `src/options.rs`, `src/error.rs`).

The development shallowly embeds the runner: the resize-geometry resolver
`Runner::set_scaled_size`, the per-file pipeline `Runner::run_process`, the
batch loop in `Runner::run`, and the output-path derivation
`Runner::make_path` / `Runner::get_parted_filename`.

The Rust code performs its resize arithmetic in IEEE-754 single precision
(`f32`).  We model `f32` values by their exact rational value (`ℚ`) and model
each `f32` operation as the exact rational operation followed by rounding to
nearest (ties to even) at 24 bits of precision, which is exactly the IEEE
semantics for operands and results in the normal range.  All inputs arising
from image dimensions and directive fields stay far inside the normal range,
and overflow past the largest `f32` coincides with the saturating `as u32`
cast at the point of use, so the normal-range model is faithful for every
observable value in scope.

External collaborators (the caesium codec, `imagesize` probing, and the
filesystem) are modelled as environments of explicit result values, and the
side effects of a per-file run are recorded as an event trace.
-/

namespace Imgtool

/-! ### A model of IEEE-754 single precision over ℚ -/

/-- Bit length of a natural number, computed with explicit fuel so the kernel
can reduce it (`bitLen n = ⌊log₂ n⌋ + 1` for `n ≥ 1`, and `0` for `0`). -/
def bitLenAux : ℕ → ℕ → ℕ
  | 0, _ => 0
  | fuel + 1, n => if n = 0 then 0 else bitLenAux fuel (n / 2) + 1

/-- Bit length of a natural number. -/
def bitLen (n : ℕ) : ℕ := bitLenAux (n + 1) n

/-- Integer power of two as a rational, for possibly negative exponents. -/
def pow2 (e : ℤ) : ℚ :=
  if 0 ≤ e then mkRat (Int.ofNat (2 ^ e.toNat)) 1 else mkRat 1 (2 ^ (-e).toNat)

/-- Floor of a nonnegative rational as a natural number. -/
def floorPos (q : ℚ) : ℕ := q.num.toNat / q.den

/-- Exact product of two rationals, built through `mkRat` so the kernel can
evaluate it (the `Rat` arithmetic of the ambient library is irreducible). -/
def qmul (a b : ℚ) : ℚ := mkRat (a.num * b.num) (a.den * b.den)

/-- Exact quotient of two rationals (`0` when the divisor is `0`). -/
def qdiv (a b : ℚ) : ℚ :=
  if 0 ≤ b.num then mkRat (a.num * Int.ofNat b.den) (a.den * b.num.toNat)
  else mkRat (-(a.num * Int.ofNat b.den)) (a.den * (-b.num).toNat)

/-- Exact difference of two rationals. -/
def qsub (a b : ℚ) : ℚ :=
  mkRat (a.num * Int.ofNat b.den - b.num * Int.ofNat a.den) (a.den * b.den)

/-- Exact negation of a rational. -/
def qneg (a : ℚ) : ℚ := mkRat (-a.num) a.den

/-- Binade exponent of a positive rational: the unique `e` with
`2^e ≤ q < 2^(e+1)`. -/
def qlog2 (q : ℚ) : ℤ :=
  let e0 : ℤ := ((bitLen q.num.toNat : ℤ) - 1) - ((bitLen q.den : ℤ) - 1)
  if Rat.blt q (pow2 e0) then e0 - 1
  else if Rat.blt q (pow2 (e0 + 1)) then e0
  else e0 + 1

/-- Round a positive rational to the nearest `f32` value (round to nearest,
ties to even), assuming the result lies in the normal range. -/
def roundF32pos (q : ℚ) : ℚ :=
  let e := qlog2 q
  let ulp := pow2 (e - 23)
  let m := qdiv q ulp
  let fl := floorPos m
  let frac : ℚ := qsub m (mkRat (Int.ofNat fl) 1)
  let half : ℚ := mkRat 1 2
  let mm := if Rat.blt frac half then fl
            else if Rat.blt half frac then fl + 1
            else if fl % 2 = 0 then fl else fl + 1
  qmul (mkRat (Int.ofNat mm) 1) ulp

/-- Round a rational to the nearest `f32` value. -/
def roundF32 (q : ℚ) : ℚ :=
  if q.num = 0 then 0
  else if Rat.blt q 0 then qneg (roundF32pos (qneg q))
  else roundF32pos q

/-- Model of the Rust `as f32` conversion from an unsigned integer. -/
def f32ofNat (n : ℕ) : ℚ := roundF32 (mkRat (Int.ofNat n) 1)

/-- Model of `f32` multiplication: exact product, rounded. -/
def f32mul (a b : ℚ) : ℚ := roundF32 (qmul a b)

/-- Model of `f32` division: exact quotient, rounded. -/
def f32div (a b : ℚ) : ℚ := roundF32 (qdiv a b)

/-- Model of the Rust `as u32` cast from `f32`: truncation toward zero,
saturating at the ends of the `u32` range. -/
def f32toU32 (q : ℚ) : ℕ :=
  if Rat.blt 0 q then min (floorPos q) (2 ^ 32 - 1) else 0

/-- Model of the Rust `as u32` cast from `usize` (wrapping). -/
def usizeToU32 (n : ℕ) : ℕ := n % 2 ^ 32

/-! ### Data model (`src/options.rs`) -/

/-- The resize rules of `options.rs` (`enum ResizeRule`). -/
inductive ResizeRule where
  | noResize
  | size
  | scale
  | shortEdge
  | longEdge
  | width
  | height
  deriving DecidableEq, Repr

/-- The parsed resize directive of `options.rs` (`struct ResizeArgs`).
The `f32` fields `width`, `height` and `ratio` are modelled by their exact
rational values. -/
structure ResizeArgs where
  rule : ResizeRule
  edge_size : ℕ
  width : ℚ
  height : ℚ
  ratio : ℚ
  donot_enlarge : Bool
  keep_aspect_ratio : Bool
  deriving DecidableEq, Repr

/-- The defaults of `ResizeArgs::new` in `options.rs`. -/
def ResizeArgs.new : ResizeArgs :=
  { rule := .noResize, edge_size := 0, width := 0, height := 0, ratio := 0,
    donot_enlarge := false, keep_aspect_ratio := true }

/-- Output formats (`enum OutputFormatTypes` of `options.rs`; the mapping to
the codec collaborator's own enum is a bijection and is identified with it). -/
inductive OutputFormatTypes where
  | jpeg
  | png
  | gif
  | webp
  | tiff
  deriving DecidableEq, Repr

/-- The slice of the external codec's parameter struct (`CSParameters`) that
the runner reads or writes: the target width and height, both `u32`, with `0`
meaning "unset".  The remaining fields (quality and friends) are never
consulted by the logic under verification and are not modelled. -/
structure CSParameters where
  width : ℕ
  height : ℕ
  deriving DecidableEq, Repr

/-- Modelled from the spec: the external collaborator constructor
`CSParameters::new` leaves the target size unset, and a zero target dimension
means "let the collaborator choose/preserve it" (spec §3, TargetSize). -/
def CSParameters.new : CSParameters := { width := 0, height := 0 }

/-- The CLI options consumed by the runner (`struct CliOptions` of
`options.rs`).  Paths are modelled as strings; `prefix`/`suffix` of the
source appear here as `pfx`/`sfx`.  The per-format parameter structs only
feed fields of `CSParameters` that the runner never reads and are omitted. -/
structure CliOptions where
  input : String
  output : String
  pfx : Option String
  sfx : Option String
  dry_run : Bool
  continue_on_error : Bool
  skip_if_bigger : Bool
  target_format : Option OutputFormatTypes
  delete_origin : Bool
  keep_metadata : Bool
  lossless : Bool
  resize_args : ResizeArgs
  deriving DecidableEq, Repr

/-- The run configuration (`struct RunConfiguration` of `runner.rs`). -/
structure RunConfiguration where
  target_format : Option OutputFormatTypes
  caesium_parameters : CSParameters
  options : CliOptions
  deriving DecidableEq, Repr

/-- Embedding of `impl From<CliOptions> for RunConfiguration`: the target
format is carried over and the caesium parameter template starts from
`CSParameters::new` (the `From<CliOptions> for CSParameters` conversion never
touches the width/height fields modelled here). -/
def RunConfiguration.ofOptions (options : CliOptions) : RunConfiguration :=
  { target_format := options.target_format,
    caesium_parameters := CSParameters.new,
    options := options }

/-! ### The resize-geometry resolver (`Runner::set_scaled_size`) -/

/-- Embedding of the pure core of `Runner::set_scaled_size` in `runner.rs`:
given the parameter template, the resize directive and the probed natural
size `(origin_width, origin_height)`, produce the updated parameters.  Each
branch mirrors the Rust `match resize_args.rule` arm for arm, with `f32`
arithmetic modelled by the rounding operations above. -/
def set_scaled_size_dims (p : CSParameters) (resize_args : ResizeArgs)
    (origin_width origin_height : ℕ) : CSParameters :=
  match resize_args.rule with
  | .size =>
      { p with width := f32toU32 resize_args.width,
               height := f32toU32 resize_args.height }
  | .scale =>
      if resize_args.ratio ≠ 0 then
        { p with
          width := f32toU32 (f32mul (f32ofNat origin_width) resize_args.ratio),
          height := f32toU32 (f32mul (f32ofNat origin_height) resize_args.ratio) }
      else
        { p with
          width := f32toU32 (f32mul (f32ofNat origin_width) resize_args.width),
          height := f32toU32 (f32mul (f32ofNat origin_height) resize_args.height) }
  | .shortEdge | .longEdge =>
      let set_width_to_edge_size :=
        if resize_args.rule = .shortEdge then origin_width < origin_height
        else origin_width > origin_height
      if set_width_to_edge_size then
        let p := { p with width := resize_args.edge_size }
        if resize_args.keep_aspect_ratio then
          let scale_ratio := f32div (f32ofNat resize_args.edge_size) (f32ofNat origin_width)
          { p with height := f32toU32 (f32mul (f32ofNat origin_height) scale_ratio) }
        else p
      else
        let p := { p with height := resize_args.edge_size }
        if resize_args.keep_aspect_ratio then
          let scale_ratio := f32div (f32ofNat resize_args.edge_size) (f32ofNat origin_height)
          { p with width := f32toU32 (f32mul (f32ofNat origin_width) scale_ratio) }
        else p
  | .width =>
      let p := { p with width := f32toU32 resize_args.width }
      if !resize_args.keep_aspect_ratio then
        { p with height := usizeToU32 origin_height }
      else p
  | .height =>
      let p := { p with height := f32toU32 resize_args.height }
      if !resize_args.keep_aspect_ratio then
        { p with width := usizeToU32 origin_width }
      else p
  | .noResize => p

/-! ### Errors (`src/error.rs`) -/

/-- The runner's error type (`struct ImageProcessError`): a message string. -/
structure ImageProcessError where
  msg : String
  deriving DecidableEq, Repr

/-- The external codec collaborator's error: a numeric code (`u32`; code
`10407` means "requested format equals detected source format") and a
message. -/
structure CaesiumError where
  code : ℕ
  message : String
  deriving DecidableEq, Repr

/-- Embedding of `impl From<CaesiumError> for ImageProcessError`, which
formats the codec error with the external `Display` implementation; the
display text is modelled as the message field. -/
def ImageProcessError.ofCaesium (e : CaesiumError) : ImageProcessError :=
  ⟨e.message⟩

/-! ### Output path derivation (`Runner::make_path`,
`Runner::get_parted_filename`) -/

/-- Split a character list at the LAST occurrence of `ch`, returning the
parts before and after it, or `none` when `ch` does not occur. -/
def splitLast (ch : Char) : List Char → Option (List Char × List Char)
  | [] => none
  | c :: cs =>
    match splitLast ch cs with
    | some (b, a) => some (c :: b, a)
    | none => if c = ch then some ([], cs) else none

/-- Embedding of the Rust standard library's `split_file_at_dot`, the
common core of `Path::file_stem` and `Path::extension`: the literal name
`".."` and names whose only dot is the leading character have no extension;
otherwise the name is split at the last dot. -/
def split_file_at_dot (s : String) : String × Option String :=
  if s = ".." then (s, none)
  else
    match splitLast '.' s.data with
    | none => (s, none)
    | some (b, a) => if b = [] then (s, none) else (⟨b⟩, some ⟨a⟩)

/-- Split a character list on `/`, keeping empty pieces (so `a//b` yields an
empty middle piece and a trailing `/` yields an empty last piece). -/
def splitOnSlash : List Char → List (List Char)
  | [] => [[]]
  | c :: cs =>
    if c = '/' then [] :: splitOnSlash cs
    else
      match splitOnSlash cs with
      | [] => [[c]]
      | h :: t => (c :: h) :: t

/-- Whether a raw slash-separated piece survives as a `Normal` path
component: empty pieces (duplicate or trailing separators, the root) and
`.` pieces (`CurDir`) do not. -/
def keepComponent (c : List Char) : Bool := decide (c ≠ [] ∧ c ≠ ['.'])

/-- Model of `Path::file_name` (Unix semantics): the last `Normal` component
of the path — pieces between `/` with empty and `.` pieces dropped — or
`none` when there is no such component or the last one is `..` (`ParentDir`). -/
def rust_file_name (s : String) : Option String :=
  match ((splitOnSlash s.data).filter keepComponent).getLast? with
  | none => none
  | some c => if c = ['.', '.'] then none else some ⟨c⟩

/-- Embedding of `Runner::get_parted_filename`: the empty string maps to
`("", none)`, otherwise `Path::file_stem` / `Path::extension` semantics
apply, i.e. the dot split acts on the FILE NAME (the last normal path
component) of the argument, not on the whole string.  When `file_name` is
`none` the source unwraps a `none` and panics; that branch is unreachable
from the only caller (the argument is a real file's name with an optional
affix glued on, so its last component ends in a nonempty name that is
neither `.` nor `..`), and the model makes it total by splitting the whole
string there. -/
def get_parted_filename (filename : String) : String × Option String :=
  if filename = "" then ("", none)
  else
    match rust_file_name filename with
    | some name => split_file_at_dot name
    | none => split_file_at_dot filename

/-- Model of `PathBuf::join` / `PathBuf::push` (Unix semantics): an absolute
right operand replaces the left one entirely; otherwise the operands are
concatenated with a separator added when the left one is nonempty and does
not already end in one. -/
def path_join (dir name : String) : String :=
  if name.data.head? = some '/' then name
  else if dir = "" then name
  else if dir.data.getLast? = some '/' then dir ++ name
  else dir ++ "/" ++ name

/-- The filename part of `Runner::make_path`: the optional prefix is glued
onto the full original filename, then the optional suffix is inserted before
the extension when `get_parted_filename` finds one and appended otherwise. -/
def make_filename (filename : String) (pfx sfx : Option String) : String :=
  let f1 :=
    match pfx with
    | none => filename
    | some p => p ++ filename
  match sfx with
  | none => f1
  | some s =>
    let parted := get_parted_filename f1
    match parted.2 with
    | none => f1 ++ s
    | some ext => parted.1 ++ s ++ "." ++ ext

/-- Embedding of `Runner::make_path`.  The source unwraps the `file_name`
option (a panic on `None` is unreachable from enumerated files); the model
substitutes the empty filename in that dead branch. -/
def make_path (input_file output_dir : String) (pfx sfx : Option String) : String :=
  path_join output_dir (make_filename ((rust_file_name input_file).getD "") pfx sfx)

/-- Modelled from the spec (section 4.2, as quoted by claim C7): the output
filename built as prefix glued onto the whole original filename, then the
name split at the LAST dot with the suffix inserted between stem and
extension, names with no extension getting the suffix appended directly. -/
def spec_derive_filename (filename : String) (pfx sfx : Option String) : String :=
  let f1 := pfx.getD "" ++ filename
  match sfx with
  | none => f1
  | some s =>
    match splitLast '.' f1.data with
    | none => f1 ++ s
    | some (stem, ext) => (⟨stem⟩ : String) ++ s ++ "." ++ (⟨ext⟩ : String)

/-- The amended form of the spec sentence for claim C7: identical to
`spec_derive_filename` except that the stem/extension split follows
file-stem semantics, under which the literal name `..` and a name whose only
dot is its leading character (a dotfile) have no extension. -/
def spec_derive_filename_amended (filename : String) (pfx sfx : Option String) : String :=
  let f1 := pfx.getD "" ++ filename
  match sfx with
  | none => f1
  | some s =>
    match (split_file_at_dot f1).2 with
    | none => f1 ++ s
    | some ext => (split_file_at_dot f1).1 ++ s ++ "." ++ ext

/-- Decidable equality for `Except` results, used to evaluate concrete runs
in witnesses. -/
instance {e a : Type} [DecidableEq e] [DecidableEq a] : DecidableEq (Except e a) := fun x y =>
  match x, y with
  | .ok v, .ok w => if h : v = w then .isTrue (by rw [h]) else .isFalse (by simp [h])
  | .error v, .error w => if h : v = w then .isTrue (by rw [h]) else .isFalse (by simp [h])
  | .ok _, .error _ => .isFalse (by simp)
  | .error _, .ok _ => .isFalse (by simp)

/-! ### The per-file pipeline (`Runner::run_process`) -/

/-- Observable filesystem and console effects of a run, in order of
occurrence: deletion of an input file, writing of an output file, and an
error line printed for a failed file in best-effort batch mode. -/
inductive Event where
  | deleted (path : String)
  | wrote (path : String) (data : List ℕ)
  | logged (path : String) (err : ImageProcessError)
  deriving DecidableEq, Repr

/-- The external collaborators for processing one file, as explicit result
values: the byte result of `fs::read`, the `imagesize::blob_size` probe, the
codec's `compress_in_memory` and `convert_in_memory`, and the results of
`fs::remove_file` and `fs::write`. -/
structure FileEnv where
  readResult : Except String (List ℕ)
  probeResult : List ℕ → Except String (ℕ × ℕ)
  compress : List ℕ → CSParameters → Except CaesiumError (List ℕ)
  convert : List ℕ → CSParameters → OutputFormatTypes → Except CaesiumError (List ℕ)
  removeResult : Except String Unit
  writeResult : String → List ℕ → Except String Unit

/-- The resize stage of `Runner::run_process`: when a resize rule is
configured, probe the natural size and run the resolver on a clone of the
configured parameter template. -/
def resized_params (env : FileEnv) (rc : RunConfiguration) (origin_data : List ℕ) :
    Except ImageProcessError CSParameters :=
  if rc.options.resize_args.rule ≠ .noResize then
    match env.probeResult origin_data with
    | .error e => .error ⟨e⟩
    | .ok wh => .ok (set_scaled_size_dims rc.caesium_parameters rc.options.resize_args wh.1 wh.2)
  else .ok rc.caesium_parameters

/-- The codec stage of `Runner::run_process`: plain compression when no
target format is set; otherwise conversion, retried as compression of the
original bytes when the conversion fails with code `10407`. -/
def compressed_result (env : FileEnv) (rc : RunConfiguration) (origin_data : List ℕ)
    (params : CSParameters) : Except CaesiumError (List ℕ) :=
  match rc.target_format with
  | none => env.compress origin_data params
  | some format =>
    match env.convert origin_data params format with
    | .error err =>
      if err.code = 10407 then env.compress origin_data params else .error err
    | .ok v => .ok v

/-- Embedding of `Runner::run_process`: read the input, resolve the resize,
run the codec stage, then (optionally) delete the origin and finally write
the output.  The second component is the trace of observable effects. -/
def run_process (env : FileEnv) (input_file output_file : String)
    (rc : RunConfiguration) : Except ImageProcessError Unit × List Event :=
  match env.readResult with
  | .error e => (.error ⟨e⟩, [])
  | .ok origin_data =>
    match resized_params env rc origin_data with
    | .error e => (.error e, [])
    | .ok params =>
      match compressed_result env rc origin_data params with
      | .error e => (.error (ImageProcessError.ofCaesium e), [])
      | .ok compressed =>
        if rc.options.delete_origin then
          match env.removeResult with
          | .error e => (.error ⟨e⟩, [])
          | .ok _ =>
            match env.writeResult output_file compressed with
            | .error e => (.error ⟨e⟩, [.deleted input_file])
            | .ok _ => (.ok (), [.deleted input_file, .wrote output_file compressed])
        else
          match env.writeResult output_file compressed with
          | .error e => (.error ⟨e⟩, [])
          | .ok _ => (.ok (), [.wrote output_file compressed])

/-! ### The batch runner (`Runner::run`) -/

/-- The filesystem facts and per-file collaborators a whole run interacts
with. -/
structure World where
  inputExists : Bool
  inputIsFile : Bool
  outputExists : Bool
  outputIsFile : Bool
  outputIsDir : Bool
  createDirResult : Except String Unit
  dirFiles : List String
  fileEnv : String → FileEnv

/-- Processing of a single enumerated file inside the batch loop: derive the
output path and run the per-file pipeline. -/
def process_one (world : World) (rc : RunConfiguration) (input_file : String) :
    Except ImageProcessError Unit × List Event :=
  run_process (world.fileEnv input_file) input_file
    (make_path input_file rc.options.output rc.options.pfx rc.options.sfx) rc

/-- Embedding of the batch loop of `Runner::run` (lines 80–94): process each
enumerated file in order; on a failure either return it immediately
(continue-on-error false) or log one error line for the file and keep
going. -/
def run_batch (world : World) (rc : RunConfiguration) :
    List String → Except ImageProcessError Unit × List Event
  | [] => (.ok (), [])
  | input_file :: rest =>
    let pr := process_one world rc input_file
    match pr.1 with
    | .ok _ =>
      let r := run_batch world rc rest
      (r.1, pr.2 ++ r.2)
    | .error err =>
      if rc.options.continue_on_error = false then (.error err, pr.2)
      else
        let r := run_batch world rc rest
        (r.1, (pr.2 ++ [Event.logged input_file err]) ++ r.2)

/-- Embedding of `Runner::run`: existence check, the single-file path, or the
directory path with output-directory validation followed by the batch loop. -/
def run (world : World) (rc : RunConfiguration) :
    Except ImageProcessError Unit × List Event :=
  let options := rc.options
  if world.inputExists = false then
    (.error ⟨"File or dir not exists: " ++ options.input⟩, [])
  else if world.inputIsFile then
    let output_file :=
      if world.outputIsDir then make_path options.input options.output options.pfx options.sfx
      else options.output
    run_process (world.fileEnv options.input) options.input output_file rc
  else
    let dirCheck : Except ImageProcessError Unit :=
      if world.outputExists = false then
        match world.createDirResult with
        | .error e => .error ⟨e⟩
        | .ok _ => .ok ()
      else if world.outputIsFile then
        .error ⟨"When input is a dir, output should also be a dir, but given a file: "
                ++ options.output⟩
      else .ok ()
    match dirCheck with
    | .error e => (.error e, [])
    | .ok _ => run_batch world rc world.dirFiles

/-- A concrete Width directive used by the witness of claim C9: 800 pixels,
aspect-ratio keeping disabled. -/
def widthArgs800 : ResizeArgs :=
  { ResizeArgs.new with rule := ResizeRule.width, width := mkRat 800 1, keep_aspect_ratio := false }

/-! ### Concrete sample data for witnesses -/

/-- A per-file environment whose convert collaborator always fails with the
same-format code 10407 while everything else succeeds. -/
def fallbackEnv : FileEnv :=
  { readResult := .ok [1, 2],
    probeResult := fun _ => .ok (1, 1),
    compress := fun _ _ => .ok [9],
    convert := fun _ _ _ => .error { code := 10407, message := "same format" },
    removeResult := .ok (),
    writeResult := fun _ _ => .ok () }

/-- A per-file environment whose read fails. -/
def failEnv : FileEnv := { fallbackEnv with readResult := .error "io fail" }

/-- A baseline set of CLI options: single flat input and output names, no
affixes, no resize, a PNG target format, and every policy flag off. -/
def sampleOptions : CliOptions :=
  { input := "in.png", output := "out", pfx := none, sfx := none, dry_run := false,
    continue_on_error := false, skip_if_bigger := false,
    target_format := some OutputFormatTypes.png, delete_origin := false,
    keep_metadata := false, lossless := false, resize_args := ResizeArgs.new }

/-- The run configuration for `sampleOptions`. -/
def fallbackRC : RunConfiguration := RunConfiguration.ofOptions sampleOptions

/-- Options with the delete-origin policy switched on. -/
def deleteOptions : CliOptions := { sampleOptions with delete_origin := true }

/-- The run configuration for `deleteOptions`. -/
def deleteRC : RunConfiguration := RunConfiguration.ofOptions deleteOptions

/-- Options with no target format (plain compression). -/
def plainOptions : CliOptions := { sampleOptions with target_format := none }

/-- The run configuration for `plainOptions`. -/
def plainRC : RunConfiguration := RunConfiguration.ofOptions plainOptions

/-- Plain-compression options with continue-on-error switched on. -/
def coeOptions : CliOptions := { plainOptions with continue_on_error := true }

/-- The run configuration for `coeOptions`. -/
def coeRC : RunConfiguration := RunConfiguration.ofOptions coeOptions

/-- A three-file batch world in which processing of file `b` fails (its read
errors out) and files `a` and `c` process fine. -/
def batchWorld : World :=
  { inputExists := true, inputIsFile := false, outputExists := true, outputIsFile := false,
    outputIsDir := true, createDirResult := .ok (), dirFiles := ["a", "b", "c"],
    fileEnv := fun p => if p = "b" then failEnv else fallbackEnv }

/-! ## Theorems -/

/-- The character data of an appended string is the appended data. -/
theorem string_data_append (a b : String) : (a ++ b).data = a.data ++ b.data := rfl

/-- A character list without a slash splits into itself alone. -/
theorem splitOnSlash_eq_of_no_slash (l : List Char) (h : '/' ∉ l) :
    splitOnSlash l = [l] := by
  induction l with
  | nil => rfl
  | cons c cs ih =>
    have hc : ¬ c = '/' := fun hc => h (by simp [hc])
    have hcs : '/' ∉ cs := fun hm => h (List.mem_cons_of_mem _ hm)
    simp [splitOnSlash, hc, ih hcs]

/-- Every piece produced by the slash split is slash-free. -/
theorem mem_splitOnSlash_no_slash (l : List Char) :
    ∀ c ∈ splitOnSlash l, '/' ∉ c := by
  induction l with
  | nil =>
    intro c hc
    simp only [splitOnSlash, List.mem_singleton] at hc
    simp [hc]
  | cons x xs ih =>
    intro c hc
    by_cases hx : x = '/'
    · simp only [splitOnSlash, if_pos hx] at hc
      rcases List.mem_cons.mp hc with rfl | hc2
      · simp
      · exact ih c hc2
    · simp only [splitOnSlash, if_neg hx] at hc
      rcases hsp : splitOnSlash xs with _ | ⟨h1, t⟩
      · rw [hsp] at hc
        simp only [List.mem_singleton] at hc
        subst hc
        intro hm
        rcases List.mem_singleton.mp hm with rfl
        exact hx rfl
      · rw [hsp] at hc
        rcases List.mem_cons.mp hc with rfl | hct
        · intro hm
          rcases List.mem_cons.mp hm with h2 | h2
          · exact hx h2.symm
          · exact ih h1 (by simp [hsp]) h2
        · exact ih c (by simp [hsp, List.mem_cons, hct])

/-- A file name extracted by `rust_file_name` contains no separator. -/
theorem rust_file_name_no_slash (s n : String) (h : rust_file_name s = some n) :
    '/' ∉ n.data := by
  unfold rust_file_name at h
  rcases hl : ((splitOnSlash s.data).filter keepComponent).getLast? with _ | c
  · rw [hl] at h
    cases h
  · rw [hl] at h
    dsimp only at h
    by_cases hc : c = ['.', '.']
    · rw [if_pos hc] at h
      cases h
    · rw [if_neg hc] at h
      injection h with h2
      subst h2
      have hmem : c ∈ (splitOnSlash s.data).filter keepComponent := by
        obtain ⟨hne, heq⟩ := List.mem_getLast?_eq_getLast (Option.mem_def.mpr hl)
        rw [heq]
        exact List.getLast_mem hne
      exact mem_splitOnSlash_no_slash s.data c (List.mem_filter.mp hmem).1

/-- On a slash-free argument `get_parted_filename` is the dot split of the
whole string (the file name IS the whole string, or the argument is one of
the degenerate names hitting the totalised panic branch). -/
theorem get_parted_filename_slashfree (s : String) (h : '/' ∉ s.data) :
    get_parted_filename s = split_file_at_dot s := by
  obtain ⟨l⟩ := s
  by_cases hs : (⟨l⟩ : String) = ""
  · rw [hs]; decide
  by_cases h1 : l = ['.']
  · subst h1; decide
  by_cases h2 : l = ['.', '.']
  · subst h2; decide
  have hd : l ≠ [] := fun hd => hs (by rw [hd])
  have hk : keepComponent l = true := by
    simp only [keepComponent, decide_eq_true_eq]
    exact ⟨hd, h1⟩
  unfold get_parted_filename
  rw [if_neg hs]
  unfold rust_file_name
  rw [splitOnSlash_eq_of_no_slash l h]
  simp [List.filter, hk, List.getLast?, h2]

/-- On a slash-free filename with a slash-free prefix, the code-side
filename derivation agrees with the amended spec derivation. -/
theorem make_filename_slashfree (f : String) (pfx sfx : Option String)
    (hfn : '/' ∉ f.data) (hpfx : ∀ p, pfx = some p → '/' ∉ p.data) :
    make_filename f pfx sfx = spec_derive_filename_amended f pfx sfx := by
  cases pfx with
  | none =>
    cases sfx with
    | none => rfl
    | some suf =>
      simp [make_filename, spec_derive_filename_amended,
        get_parted_filename_slashfree f hfn]
  | some p =>
    have hp : '/' ∉ p.data := hpfx p rfl
    have hpf : '/' ∉ (p ++ f).data := by
      rw [string_data_append]
      intro hm
      rcases List.mem_append.mp hm with h2 | h2
      · exact hp h2
      · exact hfn h2
    cases sfx with
    | none => rfl
    | some suf =>
      simp [make_filename, spec_derive_filename_amended,
        get_parted_filename_slashfree (p ++ f) hpf]

/-- C4: for every Scale directive and natural size, a non-zero ratio drives
both target dimensions (natural dimension times ratio, truncated to `u32`)
and the independent width/height fraction fields are ignored entirely, while
a zero ratio makes the width/height fields act as independent fractional
multipliers. -/
theorem scale_ratio_precedence (p : CSParameters) (args : ResizeArgs)
    (ow oh : ℕ) (hrule : args.rule = .scale) :
    (args.ratio ≠ 0 →
      set_scaled_size_dims p args ow oh
        = { p with width := f32toU32 (f32mul (f32ofNat ow) args.ratio),
                   height := f32toU32 (f32mul (f32ofNat oh) args.ratio) } ∧
      ∀ w' h', set_scaled_size_dims p { args with width := w', height := h' } ow oh
        = set_scaled_size_dims p args ow oh) ∧
    (args.ratio = 0 →
      set_scaled_size_dims p args ow oh
        = { p with width := f32toU32 (f32mul (f32ofNat ow) args.width),
                   height := f32toU32 (f32mul (f32ofNat oh) args.height) }) := by
  constructor
  · intro hr
    constructor
    · simp [set_scaled_size_dims, hrule, hr]
    · intro w' h'
      simp [set_scaled_size_dims, hrule, hr]
  · intro hr
    simp [set_scaled_size_dims, hrule, hr]

/-- Witness for C4 at a concrete Scale directive with ratio one half. -/
theorem scale_ratio_precedence_witness :
    ({ ResizeArgs.new with rule := .scale, ratio := mkRat 1 2 } : ResizeArgs).rule = .scale ∧
    ({ ResizeArgs.new with rule := .scale, ratio := mkRat 1 2 } : ResizeArgs).ratio ≠ 0 ∧
    set_scaled_size_dims CSParameters.new
        { ResizeArgs.new with rule := .scale, ratio := mkRat 1 2 } 11 20
      = { CSParameters.new with
          width := f32toU32 (f32mul (f32ofNat 11)
            ({ ResizeArgs.new with rule := .scale, ratio := mkRat 1 2 } : ResizeArgs).ratio),
          height := f32toU32 (f32mul (f32ofNat 20)
            ({ ResizeArgs.new with rule := .scale, ratio := mkRat 1 2 } : ResizeArgs).ratio) } :=
  ⟨by decide, by decide,
    ((scale_ratio_precedence CSParameters.new
      { ResizeArgs.new with rule := .scale, ratio := mkRat 1 2 } 11 20 rfl).1 (by decide)).1⟩

/-- C5: for a ShortEdge or LongEdge directive on a square natural size the
height branch is taken, because both the `<` and the `>` comparison on the
natural width are strict: the target height is set to `edge_size`, and the
target width is the aspect-scaled value when `keep_aspect_ratio` holds and is
left untouched otherwise. -/
theorem short_long_edge_square (p : CSParameters) (args : ResizeArgs) (ow oh : ℕ)
    (hrule : args.rule = .shortEdge ∨ args.rule = .longEdge)
    (hsq : ow = oh) (hpos : 0 < oh) :
    (set_scaled_size_dims p args ow oh).height = args.edge_size ∧
    (args.keep_aspect_ratio = true →
      (set_scaled_size_dims p args ow oh).width
        = f32toU32 (f32mul (f32ofNat ow) (f32div (f32ofNat args.edge_size) (f32ofNat oh)))) ∧
    (args.keep_aspect_ratio = false →
      (set_scaled_size_dims p args ow oh).width = p.width) := by
  subst hsq
  rcases hrule with h | h <;>
    rcases hkar : args.keep_aspect_ratio <;>
      simp [set_scaled_size_dims, h, hkar, lt_irrefl]

/-- Witness for C5 at a square 10 by 10 natural size and edge size 7. -/
theorem short_long_edge_square_witness :
    (({ ResizeArgs.new with rule := .shortEdge, edge_size := 7 } : ResizeArgs).rule
        = ResizeRule.shortEdge ∨
      ({ ResizeArgs.new with rule := .shortEdge, edge_size := 7 } : ResizeArgs).rule
        = ResizeRule.longEdge) ∧
    (10 : ℕ) = 10 ∧ (0 : ℕ) < 10 ∧
    ((set_scaled_size_dims CSParameters.new
        { ResizeArgs.new with rule := .shortEdge, edge_size := 7 } 10 10).height
      = ({ ResizeArgs.new with rule := .shortEdge, edge_size := 7 } : ResizeArgs).edge_size ∧
    (({ ResizeArgs.new with rule := .shortEdge, edge_size := 7 } : ResizeArgs).keep_aspect_ratio
        = true →
      (set_scaled_size_dims CSParameters.new
          { ResizeArgs.new with rule := .shortEdge, edge_size := 7 } 10 10).width
        = f32toU32 (f32mul (f32ofNat 10) (f32div
            (f32ofNat ({ ResizeArgs.new with rule := .shortEdge, edge_size := 7 }
              : ResizeArgs).edge_size) (f32ofNat 10)))) ∧
    (({ ResizeArgs.new with rule := .shortEdge, edge_size := 7 } : ResizeArgs).keep_aspect_ratio
        = false →
      (set_scaled_size_dims CSParameters.new
          { ResizeArgs.new with rule := .shortEdge, edge_size := 7 } 10 10).width
        = CSParameters.new.width)) :=
  ⟨Or.inl rfl, rfl, by decide,
    short_long_edge_square CSParameters.new
      { ResizeArgs.new with rule := .shortEdge, edge_size := 7 } 10 10
      (Or.inl rfl) rfl (by decide)⟩

/-- C6 counterexample: for a ShortEdge directive with edge size 25,
aspect-ratio keeping, and natural size 3 by 15, the code sets the long side
to 124 whereas the exact formula round_down(e times other over short) gives
125, so the resolved value is NOT the exact rational floor: the two `f32`
roundings (of 25/3, then of the product with 15) land just below the exact
integer 125. -/
theorem short_edge_not_exact_floor :
    (set_scaled_size_dims CSParameters.new
        { ResizeArgs.new with rule := .shortEdge, edge_size := 25 } 3 15).width = 25 ∧
    (set_scaled_size_dims CSParameters.new
        { ResizeArgs.new with rule := .shortEdge, edge_size := 25 } 3 15).height = 124 ∧
    25 * 15 / 3 = 125 ∧ (124 : ℕ) ≠ 125 := by
  decide

/-- C6 (amended): for a ShortEdge directive with aspect-ratio keeping on a
non-square positive natural size, the side corresponding to the smaller
natural dimension equals `edge_size`, and the other side equals the `u32`
truncation of the single-precision computation
other_dimension times (edge_size divided by short_dimension). -/
theorem short_edge_resolution (p : CSParameters) (args : ResizeArgs) (ow oh : ℕ)
    (hrule : args.rule = .shortEdge) (hkar : args.keep_aspect_ratio = true)
    (_hwpos : 0 < ow) (_hhpos : 0 < oh) :
    (ow < oh →
      (set_scaled_size_dims p args ow oh).width = args.edge_size ∧
      (set_scaled_size_dims p args ow oh).height
        = f32toU32 (f32mul (f32ofNat oh) (f32div (f32ofNat args.edge_size) (f32ofNat ow)))) ∧
    (oh < ow →
      (set_scaled_size_dims p args ow oh).height = args.edge_size ∧
      (set_scaled_size_dims p args ow oh).width
        = f32toU32 (f32mul (f32ofNat ow) (f32div (f32ofNat args.edge_size) (f32ofNat oh)))) := by
  constructor
  · intro hlt
    simp [set_scaled_size_dims, hrule, hkar, hlt]
  · intro hlt
    have : ¬ ow < oh := Nat.lt_asymm hlt
    simp [set_scaled_size_dims, hrule, hkar, this]

/-- Witness for the amended C6 at natural size 3 by 15 with edge size 25. -/
theorem short_edge_resolution_witness :
    ({ ResizeArgs.new with rule := .shortEdge, edge_size := 25 } : ResizeArgs).rule
        = ResizeRule.shortEdge ∧
    ({ ResizeArgs.new with rule := .shortEdge, edge_size := 25 }
        : ResizeArgs).keep_aspect_ratio = true ∧
    (0 : ℕ) < 3 ∧ (0 : ℕ) < 15 ∧ (3 : ℕ) < 15 ∧
    ((set_scaled_size_dims CSParameters.new
        { ResizeArgs.new with rule := .shortEdge, edge_size := 25 } 3 15).width
      = ({ ResizeArgs.new with rule := .shortEdge, edge_size := 25 } : ResizeArgs).edge_size ∧
    (set_scaled_size_dims CSParameters.new
        { ResizeArgs.new with rule := .shortEdge, edge_size := 25 } 3 15).height
      = f32toU32 (f32mul (f32ofNat 15) (f32div
          (f32ofNat ({ ResizeArgs.new with rule := .shortEdge, edge_size := 25 }
            : ResizeArgs).edge_size) (f32ofNat 3)))) :=
  ⟨rfl, rfl, by decide, by decide, by decide,
    (short_edge_resolution CSParameters.new
      { ResizeArgs.new with rule := .shortEdge, edge_size := 25 } 3 15
      rfl rfl (by decide) (by decide)).1 (by decide)⟩

/-- C9: a Width directive sets the target width to the directive's width
truncated to `u32`; with `keep_aspect_ratio` false the target height is
pinned to the natural height, with `keep_aspect_ratio` true it stays unset
(zero, starting from the fresh parameter template).  The Height rule is
symmetric. -/
theorem width_height_rule (args : ResizeArgs) (ow oh : ℕ)
    (hw : ow < 2 ^ 32) (hh : oh < 2 ^ 32) :
    (args.rule = .width →
      (set_scaled_size_dims CSParameters.new args ow oh).width = f32toU32 args.width ∧
      (args.keep_aspect_ratio = false →
        (set_scaled_size_dims CSParameters.new args ow oh).height = oh) ∧
      (args.keep_aspect_ratio = true →
        (set_scaled_size_dims CSParameters.new args ow oh).height = 0)) ∧
    (args.rule = .height →
      (set_scaled_size_dims CSParameters.new args ow oh).height = f32toU32 args.height ∧
      (args.keep_aspect_ratio = false →
        (set_scaled_size_dims CSParameters.new args ow oh).width = ow) ∧
      (args.keep_aspect_ratio = true →
        (set_scaled_size_dims CSParameters.new args ow oh).width = 0)) := by
  refine ⟨fun hrule => ⟨?_, fun hkar => ?_, fun hkar => ?_⟩,
    fun hrule => ⟨?_, fun hkar => ?_, fun hkar => ?_⟩⟩
  · rcases hkar : args.keep_aspect_ratio <;> simp [set_scaled_size_dims, hrule, hkar]
  · simp [set_scaled_size_dims, hrule, hkar, usizeToU32, CSParameters.new]
    omega
  · simp [set_scaled_size_dims, hrule, hkar, CSParameters.new]
  · rcases hkar : args.keep_aspect_ratio <;> simp [set_scaled_size_dims, hrule, hkar]
  · simp [set_scaled_size_dims, hrule, hkar, usizeToU32, CSParameters.new]
    omega
  · simp [set_scaled_size_dims, hrule, hkar, CSParameters.new]

/-- Witness for C9 with a Width directive of 800 pixels and
aspect-ratio keeping disabled, at natural size 100 by 50. -/
theorem width_height_rule_witness :
    (100 : ℕ) < 2 ^ 32 ∧ (50 : ℕ) < 2 ^ 32 ∧
    (widthArgs800.rule = ResizeRule.width →
      (set_scaled_size_dims CSParameters.new widthArgs800 100 50).width
        = f32toU32 widthArgs800.width ∧
      (widthArgs800.keep_aspect_ratio = false →
        (set_scaled_size_dims CSParameters.new widthArgs800 100 50).height = 50) ∧
      (widthArgs800.keep_aspect_ratio = true →
        (set_scaled_size_dims CSParameters.new widthArgs800 100 50).height = 0)) :=
  ⟨by decide, by decide,
    (width_height_rule widthArgs800 100 50 (by decide) (by decide)).1⟩

/-- C7 counterexample: the claim's derivation rule (split the prefixed name
at the last dot and insert the suffix between stem and extension) mispredicts
the code on a dotfile: for input `.bashrc` with suffix `_v` the code appends
the suffix (`.bashrc` has no extension under file-stem semantics) while the
claim's rule inserts it before `bashrc`. -/
theorem output_name_dotfile_mismatch :
    make_path ".bashrc" "/out" none (some "_v") = "/out/.bashrc_v" ∧
    path_join "/out" (spec_derive_filename ".bashrc" none (some "_v")) = "/out/_v.bashrc" ∧
    make_path ".bashrc" "/out" none (some "_v")
      ≠ path_join "/out" (spec_derive_filename ".bashrc" none (some "_v")) := by
  decide

/-- C7 (amended): for prefixes containing no path separator (the scope in
which a prefix is a filename affix; with a separator in it the code drops
everything up to the last separator of the prefixed name when inserting a
suffix), the derived output path is the output directory joined with the
filename obtained by prepending the prefix to the full original filename and
then splitting at the last dot under file-stem semantics (the name `..` and
a name whose only dot is its leading character count as having no extension,
and the suffix is then appended directly); in particular `photo.JPG` with
prefix `sm_`, suffix `_v2` and directory `/out` yields
`/out/sm_photo_v2.JPG`, and extension-less `README` with suffix `_bak`
yields `README_bak`. -/
theorem output_name_derivation :
    (∀ input_file output_dir pfx sfx,
      (∀ p, pfx = some p → '/' ∉ p.data) →
      make_path input_file output_dir pfx sfx
        = path_join output_dir
            (spec_derive_filename_amended ((rust_file_name input_file).getD "") pfx sfx)) ∧
    make_path "photo.JPG" "/out" (some "sm_") (some "_v2") = "/out/sm_photo_v2.JPG" ∧
    make_filename "README" none (some "_bak") = "README_bak" := by
  refine ⟨?_, by decide, by decide⟩
  intro input_file output_dir pfx sfx hpfx
  unfold make_path
  congr 1
  have hfn : '/' ∉ ((rust_file_name input_file).getD "").data := by
    rcases h : rust_file_name input_file with _ | n
    · simp
    · simpa using rust_file_name_no_slash input_file n h
  exact make_filename_slashfree _ pfx sfx hfn hpfx

/-- Witness for the amended C7 at the claim's own example: input
`photo.JPG`, separator-free prefix `sm_`, suffix `_v2`, directory `/out`. -/
theorem output_name_derivation_witness :
    (∀ p, (some "sm_" : Option String) = some p → '/' ∉ p.data) ∧
    make_path "photo.JPG" "/out" (some "sm_") (some "_v2")
      = path_join "/out"
          (spec_derive_filename_amended ((rust_file_name "photo.JPG").getD "")
            (some "sm_") (some "_v2")) :=
  ⟨fun p hp => by cases hp; decide,
    output_name_derivation.1 "photo.JPG" "/out" (some "sm_") (some "_v2")
      (fun p hp => by cases hp; decide)⟩

/-- C1: with a target format configured, a convert failure with code 10407
falls back to plain compression of the original bytes (the run is exactly
the no-target-format run), the 10407 error itself is never the outcome; a
convert failure with any other code, or a failure of the fallback
compression, is the terminal per-file result. -/
theorem convert_same_format_fallback (env : FileEnv) (input_file output_file : String)
    (rc : RunConfiguration) (format : OutputFormatTypes) (origin : List ℕ)
    (params : CSParameters) (err : CaesiumError)
    (htf : rc.target_format = some format)
    (hread : env.readResult = .ok origin)
    (hparams : resized_params env rc origin = .ok params)
    (hconv : env.convert origin params format = .error err) :
    (err.code = 10407 →
      run_process env input_file output_file rc
        = run_process env input_file output_file { rc with target_format := none }) ∧
    (err.code ≠ 10407 →
      run_process env input_file output_file rc
        = (.error (ImageProcessError.ofCaesium err), [])) ∧
    (err.code = 10407 → ∀ err2, env.compress origin params = .error err2 →
      run_process env input_file output_file rc
        = (.error (ImageProcessError.ofCaesium err2), [])) := by
  have hparams2 : resized_params env { rc with target_format := none } origin = .ok params :=
    hparams
  refine ⟨fun hc => ?_, fun hc => ?_, fun hc err2 hcomp => ?_⟩
  · simp [run_process, hread, hparams, hparams2, compressed_result, htf, hconv, hc]
  · simp [run_process, hread, hparams, compressed_result, htf, hconv, hc]
  · simp [run_process, hread, hparams, compressed_result, htf, hconv, hc, hcomp,
      ImageProcessError.ofCaesium]

/-- Witness for C1: a concrete environment whose convert always fails with
code 10407, under a PNG target format. -/
theorem convert_same_format_fallback_witness :
    fallbackRC.target_format = some OutputFormatTypes.png ∧
    fallbackEnv.readResult = .ok [1, 2] ∧
    resized_params fallbackEnv fallbackRC [1, 2] = .ok fallbackRC.caesium_parameters ∧
    fallbackEnv.convert [1, 2] fallbackRC.caesium_parameters OutputFormatTypes.png
      = .error { code := 10407, message := "same format" } ∧
    (((⟨10407, "same format"⟩ : CaesiumError).code = 10407 →
      run_process fallbackEnv "a" "b" fallbackRC
        = run_process fallbackEnv "a" "b" { fallbackRC with target_format := none }) ∧
    ((⟨10407, "same format"⟩ : CaesiumError).code ≠ 10407 →
      run_process fallbackEnv "a" "b" fallbackRC
        = (.error (ImageProcessError.ofCaesium ⟨10407, "same format"⟩), [])) ∧
    ((⟨10407, "same format"⟩ : CaesiumError).code = 10407 →
      ∀ err2, fallbackEnv.compress [1, 2] fallbackRC.caesium_parameters = .error err2 →
      run_process fallbackEnv "a" "b" fallbackRC
        = (.error (ImageProcessError.ofCaesium err2), []))) :=
  ⟨rfl, rfl, rfl, rfl,
    convert_same_format_fallback fallbackEnv "a" "b" fallbackRC OutputFormatTypes.png
      [1, 2] fallbackRC.caesium_parameters ⟨10407, "same format"⟩ rfl rfl rfl rfl⟩

/-- C8: with the delete-origin policy set, the only possible effect traces of
a per-file run are nothing, a deletion alone, or a deletion followed by the
final write; a failing deletion means no output is ever written, and a
successful run is exactly delete-then-write. -/
theorem delete_before_write (env : FileEnv) (input_file output_file : String)
    (rc : RunConfiguration) (hdel : rc.options.delete_origin = true) :
    ((run_process env input_file output_file rc).2 = [] ∨
     (run_process env input_file output_file rc).2 = [Event.deleted input_file] ∨
     ∃ d, (run_process env input_file output_file rc).2
        = [Event.deleted input_file, Event.wrote output_file d]) ∧
    ((∃ s, env.removeResult = .error s) →
      ∀ p d, Event.wrote p d ∉ (run_process env input_file output_file rc).2) ∧
    ((run_process env input_file output_file rc).1 = .ok () →
      ∃ d, (run_process env input_file output_file rc).2
        = [Event.deleted input_file, Event.wrote output_file d]) := by
  rcases hr : env.readResult with e | origin
  · simp [run_process, hr]
  rcases hp : resized_params env rc origin with e | params
  · simp [run_process, hr, hp]
  rcases hc : compressed_result env rc origin params with e | data
  · simp [run_process, hr, hp, hc]
  rcases hrm : env.removeResult with e | u
  · simp [run_process, hr, hp, hc, hdel, hrm]
  rcases hw : env.writeResult output_file data with e | u2
  · simp [run_process, hr, hp, hc, hdel, hrm, hw]
  · simp [run_process, hr, hp, hc, hdel, hrm, hw]

/-- Witness for C8: a concrete delete-origin run whose steps all succeed. -/
theorem delete_before_write_witness :
    deleteRC.options.delete_origin = true ∧
    (((run_process fallbackEnv "a" "b" deleteRC).2 = [] ∨
     (run_process fallbackEnv "a" "b" deleteRC).2 = [Event.deleted "a"] ∨
     ∃ d, (run_process fallbackEnv "a" "b" deleteRC).2
        = [Event.deleted "a", Event.wrote "b" d]) ∧
    ((∃ s, fallbackEnv.removeResult = .error s) →
      ∀ p d, Event.wrote p d ∉ (run_process fallbackEnv "a" "b" deleteRC).2) ∧
    ((run_process fallbackEnv "a" "b" deleteRC).1 = .ok () →
      ∃ d, (run_process fallbackEnv "a" "b" deleteRC).2
        = [Event.deleted "a", Event.wrote "b" d])) :=
  ⟨rfl, delete_before_write fallbackEnv "a" "b" deleteRC rfl⟩

/-- Helper: under continue-on-error false, the batch loop stops at the first
failing file, returning its error, with the trace containing exactly the
events of the successfully processed earlier files and of the failing file:
nothing after the failure is consulted. -/
theorem run_batch_stop (world : World) (rc : RunConfiguration)
    (hcoe : rc.options.continue_on_error = false) :
    ∀ pre f post err, (∀ x ∈ pre, (process_one world rc x).1 = .ok ()) →
      (process_one world rc f).1 = .error err →
      run_batch world rc (pre ++ f :: post)
        = (.error err, (pre.map fun x => (process_one world rc x).2).flatten
            ++ (process_one world rc f).2) := by
  intro pre
  induction pre with
  | nil =>
    intro f post err _ hf
    simp [run_batch, hf, hcoe]
  | cons x xs ih =>
    intro f post err hpre hf
    have hx : (process_one world rc x).1 = .ok () := hpre x (by simp)
    have ih2 := ih f post err (fun y hy => hpre y (by simp [hy])) hf
    simp [run_batch, hx, ih2]

/-- C2: a directory run with continue-on-error false stops at the first
failing file: the run result is that file's error and the effect trace holds
only the events of the files up to and including it — in particular the
result and trace are the same for every possible tail of the enumeration, so
no later file is processed. -/
theorem run_fails_fast (world : World) (rc : RunConfiguration)
    (pre : List String) (f : String) (post : List String) (err : ImageProcessError)
    (hex : world.inputExists = true) (hfile : world.inputIsFile = false)
    (hoex : world.outputExists = true) (hof : world.outputIsFile = false)
    (hfiles : world.dirFiles = pre ++ f :: post)
    (hcoe : rc.options.continue_on_error = false)
    (hpre : ∀ x ∈ pre, (process_one world rc x).1 = .ok ())
    (hf : (process_one world rc f).1 = .error err) :
    run world rc
      = (.error err, (pre.map fun x => (process_one world rc x).2).flatten
          ++ (process_one world rc f).2) := by
  rw [run]
  simp only [hex, hfile, hoex, hof, hfiles]
  simp only [Bool.true_eq_false, if_false, Bool.false_eq_true]
  exact run_batch_stop world rc hcoe pre f post err hpre hf

/-- Witness for C2: in the three-file batch world the second file fails on
read under the fail-fast configuration; files one and two are processed and
file three is not. -/
theorem run_fails_fast_witness :
    batchWorld.inputExists = true ∧ batchWorld.inputIsFile = false ∧
    batchWorld.outputExists = true ∧ batchWorld.outputIsFile = false ∧
    batchWorld.dirFiles = ["a"] ++ "b" :: ["c"] ∧
    plainRC.options.continue_on_error = false ∧
    (∀ x ∈ ["a"], (process_one batchWorld plainRC x).1 = .ok ()) ∧
    (process_one batchWorld plainRC "b").1 = .error ⟨"io fail"⟩ ∧
    run batchWorld plainRC
      = (.error ⟨"io fail"⟩, (["a"].map fun x => (process_one batchWorld plainRC x).2).flatten
          ++ (process_one batchWorld plainRC "b").2) :=
  ⟨rfl, rfl, rfl, rfl, rfl, rfl, by decide, by decide,
    run_fails_fast batchWorld plainRC ["a"] "b" ["c"] ⟨"io fail"⟩
      rfl rfl rfl rfl rfl rfl (by decide) (by decide)⟩

/-- Helper: a write event in a per-file trace only occurs in a successful
run, so a failed file never produces an output file. -/
theorem wrote_implies_ok (env : FileEnv) (input_file output_file : String)
    (rc : RunConfiguration) :
    ∀ p d, Event.wrote p d ∈ (run_process env input_file output_file rc).2 →
      (run_process env input_file output_file rc).1 = .ok () := by
  intro p d h
  rcases hr : env.readResult with e | origin
  · simp [run_process, hr] at h
  rcases hp : resized_params env rc origin with e | params
  · simp [run_process, hr, hp] at h
  rcases hc : compressed_result env rc origin params with e | data
  · simp [run_process, hr, hp, hc] at h
  rcases hdel : rc.options.delete_origin
  · rcases hw : env.writeResult output_file data with e | u2
    · simp [run_process, hr, hp, hc, hdel, hw] at h
    · simp [run_process, hr, hp, hc, hdel, hw]
  · rcases hrm : env.removeResult with e | u
    · simp [run_process, hr, hp, hc, hdel, hrm] at h
    · rcases hw : env.writeResult output_file data with e | u2
      · simp [run_process, hr, hp, hc, hdel, hrm, hw] at h
      · simp [run_process, hr, hp, hc, hdel, hrm, hw]

/-- Helper: under continue-on-error true the batch loop always completes
with success; each file contributes its own events, followed by exactly one
logged error line naming the file when it failed. -/
theorem run_batch_continue (world : World) (rc : RunConfiguration)
    (hcoe : rc.options.continue_on_error = true) :
    ∀ files, run_batch world rc files
      = (.ok (), (files.map fun f => (process_one world rc f).2
          ++ match (process_one world rc f).1 with
             | .ok _ => []
             | .error e => [Event.logged f e]).flatten) := by
  intro files
  induction files with
  | nil => simp [run_batch]
  | cons f rest ih =>
    rcases hf : (process_one world rc f).1 with e | u
    · simp [run_batch, hf, hcoe, ih]
    · simp [run_batch, hf, ih]

/-- C3: a directory run with continue-on-error true completes with success
regardless of per-file failures; every file is processed in order, each
failing file contributes exactly one logged error line naming it, and a
failing file produces no write event while the other files still contribute
theirs. -/
theorem run_best_effort (world : World) (rc : RunConfiguration)
    (hex : world.inputExists = true) (hfile : world.inputIsFile = false)
    (hoex : world.outputExists = true) (hof : world.outputIsFile = false)
    (hcoe : rc.options.continue_on_error = true) :
    run world rc
      = (.ok (), (world.dirFiles.map fun f => (process_one world rc f).2
          ++ match (process_one world rc f).1 with
             | .ok _ => []
             | .error e => [Event.logged f e]).flatten) ∧
    (∀ f ∈ world.dirFiles, ∀ e, (process_one world rc f).1 = .error e →
      ∀ p d, Event.wrote p d ∉ (process_one world rc f).2) := by
  constructor
  · rw [run]
    simp only [hex, hfile, hoex, hof]
    simp only [Bool.true_eq_false, if_false, Bool.false_eq_true]
    exact run_batch_continue world rc hcoe world.dirFiles
  · intro f _ e hf p d hmem
    have hok := wrote_implies_ok (world.fileEnv f) f
      (make_path f rc.options.output rc.options.pfx rc.options.sfx) rc p d hmem
    rw [process_one] at hf
    rw [hf] at hok
    exact Except.noConfusion hok

/-- Witness for C3: the three-file batch world under the continue-on-error
configuration completes with success, logging one line for the failing
second file. -/
theorem run_best_effort_witness :
    batchWorld.inputExists = true ∧ batchWorld.inputIsFile = false ∧
    batchWorld.outputExists = true ∧ batchWorld.outputIsFile = false ∧
    coeRC.options.continue_on_error = true ∧
    (run batchWorld coeRC
      = (.ok (), (batchWorld.dirFiles.map fun f => (process_one batchWorld coeRC f).2
          ++ match (process_one batchWorld coeRC f).1 with
             | .ok _ => []
             | .error e => [Event.logged f e]).flatten) ∧
    (∀ f ∈ batchWorld.dirFiles, ∀ e, (process_one batchWorld coeRC f).1 = .error e →
      ∀ p d, Event.wrote p d ∉ (process_one batchWorld coeRC f).2)) :=
  ⟨rfl, rfl, rfl, rfl, rfl,
    run_best_effort batchWorld coeRC rfl rfl rfl rfl rfl⟩

/-- Helper: the batch loop is determined by the per-file outcomes and the
continue-on-error flag. -/
theorem run_batch_congr (world : World) (rcA rcB : RunConfiguration)
    (hpo : ∀ f, process_one world rcA f = process_one world rcB f)
    (hcoe : rcA.options.continue_on_error = rcB.options.continue_on_error) :
    ∀ files, run_batch world rcA files = run_batch world rcB files := by
  intro files
  induction files with
  | nil => rfl
  | cons f rest ih => simp only [run_batch, hpo f, hcoe, ih]

/-- C10: the dry-run flag is never consulted by the runner: two run
configurations differing only in `dry_run` produce identical run results and
identical effect traces (the same processing, deletions and output writes)
in every world. -/
theorem dry_run_irrelevant (world : World) (options : CliOptions) (b1 b2 : Bool) :
    run world (RunConfiguration.ofOptions { options with dry_run := b1 })
      = run world (RunConfiguration.ofOptions { options with dry_run := b2 }) := by
  have hpo : ∀ f,
      process_one world (RunConfiguration.ofOptions { options with dry_run := b1 }) f
        = process_one world (RunConfiguration.ofOptions { options with dry_run := b2 }) f :=
    fun _ => rfl
  rw [run, run,
    run_batch_congr world (RunConfiguration.ofOptions { options with dry_run := b1 })
      (RunConfiguration.ofOptions { options with dry_run := b2 }) hpo rfl world.dirFiles]
  exact rfl

end Imgtool
